import Mathlib

/-!
# Verification of the tuxvantage layered configuration and regulation loop

Shallow embedding of the core of the `tuxvantage` repository:

* the layered configuration store (`src/config.rs`): the persisted
  `TuxVantage` document, the process-lifetime `Overrides` layer, and the
  resolution methods that merge the two over compiled-in defaults;
* the conflict-handler policy fields (`Handlers`);
* profile discovery and lookup (`Profiles`, `Config::default_profile`,
  `src/project_paths/profiles.rs`);
* the value types `BatteryLevel` and `CoolDown` with their parse and
  display forms;
* the battery regulation daemon loop (`regulate` in
  `src/app/battery_conservation.rs`), including its rounding of the
  battery charge fraction, its threshold comparison, its terminal
  behaviour on a termination signal, and its use of the configuration
  store's reader/writer lock.

Numeric conventions: Rust `u8`/`u64` become `Nat` (with explicit range
bounds where overflow or saturation matters); `f32`/`f64` arithmetic on
battery fractions and durations is modelled by exact rational arithmetic
(`ℚ`), the standard idealisation for the decimal values these claims are
about; `std::time::Duration` is modelled as a non-negative rational
number of seconds.
-/

/-! ## Handlers (ideapad::Handler and config.rs `Handlers`) -/

/-- The conflict-resolution policy of the external `ideapad` crate:
`Switch`, `Ignore`, `Error` (spec §3 "Handler"). -/
inductive Handler : Type where
  | switch : Handler
  | ignore : Handler
  | error : Handler
deriving DecidableEq, Repr

/-- `struct Handlers` from `src/config.rs` (lines 87–92): optional global
default handler plus optional per-feature handlers. -/
structure Handlers : Type where
  default : Option Handler
  battery_conservation : Option Handler
  rapid_charging : Option Handler
deriving DecidableEq, Repr

/-- `Handlers::DEFAULT` (config.rs lines 95–99). -/
def Handlers.DEFAULT : Handlers :=
  { default := none, battery_conservation := none, rapid_charging := none }

/-- `Handlers::default(&self)` (config.rs lines 101–103):
`self.default.unwrap_or(Handler::Switch)`. -/
def Handlers.defaultResolved (h : Handlers) : Handler :=
  h.default.getD Handler.switch

/-- `Handlers::battery_conservation(&self)` (config.rs lines 105–107):
`self.battery_conservation.unwrap_or_else(|| self.default())`. -/
def Handlers.batteryConservationResolved (h : Handlers) : Handler :=
  h.battery_conservation.getD h.defaultResolved

/-- `Handlers::rapid_charging(&self)` (config.rs lines 109–111). -/
def Handlers.rapidChargingResolved (h : Handlers) : Handler :=
  h.rapid_charging.getD h.defaultResolved

/-! ## Machine, Backtrace -/

/-- `enum Machine` from config.rs lines 120–126. -/
inductive Machine : Type where
  | always : Machine
  | never : Machine
  | auto : Machine
deriving DecidableEq, Repr

/-- `struct Backtrace` from config.rs lines 160–164. -/
structure Backtrace : Type where
  panics : Bool
  errors : Bool
deriving DecidableEq, Repr

/-- `Backtrace::DEFAULT` (config.rs lines 173–176). -/
def Backtrace.DEFAULT : Backtrace := { panics := false, errors := false }

/-! ## BatteryLevel and CoolDown -/

/-- `struct BatteryLevel(u8)` from config.rs line 255. The `u8` payload is
a `Nat`; the `u8` range bound is carried by theorems as a side condition. -/
structure BatteryLevel : Type where
  level : Nat
deriving DecidableEq, Repr

/-- `BatteryLevel::DEFAULT = Self(80)` (config.rs line 258). -/
def BatteryLevel.DEFAULT : BatteryLevel := ⟨80⟩

/-- `BatteryLevel::new` (config.rs lines 261–267): succeeds exactly when
the level lies in `RANGE = 0..=100`. -/
def BatteryLevel.new (level : Nat) : Option BatteryLevel :=
  if level ≤ 100 then some ⟨level⟩ else none

/-- `BatteryLevel::inner` (config.rs line 269). -/
def BatteryLevel.inner (b : BatteryLevel) : Nat := b.level

/-- `struct CoolDown(Duration)` from config.rs line 298. The duration is
modelled as an exact rational number of seconds. -/
structure CoolDown : Type where
  secs : ℚ
deriving DecidableEq, Repr

/-- `CoolDown::DEFAULT = Self(Duration::from_secs(60))` (config.rs 301). -/
def CoolDown.DEFAULT : CoolDown := ⟨60⟩

/-! ## Battery selection predicate -/

/-- `enum BatteryMatches` from config.rs lines 350–357. -/
inductive BatteryMatches : Type where
  | first : BatteryMatches
  | index : Nat → BatteryMatches
  | vendor : String → BatteryMatches
  | model : String → BatteryMatches
  | serialNumber : String → BatteryMatches
deriving DecidableEq, Repr

/-- `struct BatteryConfig` from config.rs lines 421–427. The serde
wrapper types `FromStrDeserializer`/`DisplaySerializer` are transparent
newtypes and are elided. -/
structure BatteryConfig : Type where
  matchesPred : Option BatteryMatches
  infallible : Bool
  threshold : Option BatteryLevel
  cooldown : Option CoolDown
deriving DecidableEq, Repr

/-- `BatteryConfig::DEFAULT` (config.rs lines 430–435). -/
def BatteryConfig.DEFAULT : BatteryConfig :=
  { matchesPred := none, infallible := false, threshold := none, cooldown := none }

/-- `BatteryConfig::matches(&self)` (config.rs lines 437–442): the
configured predicate, defaulting to `BatteryMatches::First`. -/
def BatteryConfig.matchesResolved (b : BatteryConfig) : BatteryMatches :=
  b.matchesPred.getD BatteryMatches.first

/-- `BatteryConfig::threshold(&self)` (config.rs lines 444–448). -/
def BatteryConfig.thresholdResolved (b : BatteryConfig) : BatteryLevel :=
  b.threshold.getD BatteryLevel.DEFAULT

/-- `BatteryConfig::cooldown(&self)` (config.rs lines 450–454). -/
def BatteryConfig.cooldownResolved (b : BatteryConfig) : CoolDown :=
  b.cooldown.getD CoolDown.DEFAULT

/-! ## Overrides and the TuxVantage document -/

/-- `struct Overrides` from config.rs lines 61–68: the process-lifetime
override layer, set from invocation arguments. -/
structure Overrides : Type where
  profile : Option String
  handlers : Handlers
  machine : Option Machine
  backtrace : Backtrace
  battery : BatteryConfig
  panic : Bool
deriving DecidableEq, Repr

/-- `Overrides::DEFAULT` (config.rs lines 71–78). -/
def Overrides.DEFAULT : Overrides :=
  { profile := none, handlers := Handlers.DEFAULT, machine := none,
    backtrace := Backtrace.DEFAULT, battery := BatteryConfig.DEFAULT,
    panic := false }

/-- `struct TuxVantage` from config.rs lines 485–504: the persisted
configuration document plus the `#[serde(skip)]` override layer. -/
structure TuxVantage : Type where
  profile : Option String
  machine : Option Machine
  panic : Bool
  handlers : Handlers
  backtrace : Backtrace
  battery : BatteryConfig
  overrides : Overrides
deriving DecidableEq, Repr

/-- `TuxVantage::profile(&self)` (config.rs lines 525–530):
`self.overrides.profile.as_deref().or_else(|| self.profile.as_deref())`. -/
def TuxVantage.resolveProfile (tv : TuxVantage) : Option String :=
  tv.overrides.profile.orElse fun _ => tv.profile

/-- `TuxVantage::machine(&self)` (config.rs lines 532–540):
`self.overrides.machine.unwrap_or_else(|| self.machine.unwrap_or_else(|| Machine::Auto))`. -/
def TuxVantage.resolveMachine (tv : TuxVantage) : Machine :=
  tv.overrides.machine.getD (tv.machine.getD Machine.auto)

/-- `TuxVantage::battery_config(&self)` (config.rs lines 542–549):
field-wise merge of the override battery config over the persisted one. -/
def TuxVantage.resolveBatteryConfig (tv : TuxVantage) : BatteryConfig :=
  { matchesPred := tv.overrides.battery.matchesPred.orElse fun _ => tv.battery.matchesPred,
    infallible := tv.overrides.battery.infallible || tv.battery.infallible,
    threshold := tv.overrides.battery.threshold.orElse fun _ => tv.battery.threshold,
    cooldown := tv.overrides.battery.cooldown.orElse fun _ => tv.battery.cooldown }

/-- `TuxVantage::panic(&self)` (config.rs lines 555–557):
`self.overrides.panic || self.panic`. -/
def TuxVantage.resolvePanic (tv : TuxVantage) : Bool :=
  tv.overrides.panic || tv.panic

/-- `TuxVantage::backtrace(&self)` (config.rs lines 559–564):
component-wise disjunction of the override and persisted pairs. -/
def TuxVantage.resolveBacktrace (tv : TuxVantage) : Backtrace :=
  { panics := tv.overrides.backtrace.panics || tv.backtrace.panics,
    errors := tv.overrides.backtrace.errors || tv.backtrace.errors }

/-- `TuxVantage::handlers(&self)` (config.rs lines 566–584): field-wise
`Option::or` of the override handlers over the persisted handlers. -/
def TuxVantage.resolveHandlers (tv : TuxVantage) : Handlers :=
  { default := tv.overrides.handlers.default.orElse fun _ => tv.handlers.default,
    battery_conservation :=
      tv.overrides.handlers.battery_conservation.orElse fun _ =>
        tv.handlers.battery_conservation,
    rapid_charging :=
      tv.overrides.handlers.rapid_charging.orElse fun _ =>
        tv.handlers.rapid_charging }

/-! ## Spec-side three-tier precedence

Second definitions written from the spec's words ("override present → use
it; else persisted value present → use it; else default"), to be compared
with the resolution methods embedded above. -/

/-- Spec-side precedence for an optional field with a compiled-in
default: the override when present, else the persisted value when
present, else the default. -/
def threeTierSpec {α : Type} (override persisted : Option α) (dflt : α) : α :=
  match override with
  | some v => v
  | none =>
    match persisted with
    | some v => v
    | none => dflt

/-- Spec-side precedence for an optional field with no compiled-in
default (the resolved value itself stays optional). -/
def threeTierOptSpec {α : Type} (override persisted : Option α) : Option α :=
  match override with
  | some v => some v
  | none => persisted

/-- A boolean layer viewed as an optional assertion: a `true` flag is a
present override/persisted value, a `false` flag is an absent one. -/
def boolLayer (b : Bool) : Option Bool :=
  if b then some true else none

/-! ## The serialised image of the configuration (`TuxVantage::dump`) -/

/-- The serialised image of a `TuxVantage` value. The `overrides` field
carries `#[serde(skip)]` (config.rs lines 502–503), so `toml::to_string`
in `TuxVantage::dump` (config.rs lines 586–594) reads every field of the
document except `overrides`; the serialised output is determined by this
record. -/
structure PersistedDoc : Type where
  profile : Option String
  machine : Option Machine
  panic : Bool
  handlers : Handlers
  backtrace : Backtrace
  battery : BatteryConfig
deriving DecidableEq, Repr

/-- The contents written by `TuxVantage::dump` (config.rs lines 586–594):
the serialisation of the non-skipped fields. -/
def TuxVantage.dumpContents (tv : TuxVantage) : PersistedDoc :=
  { profile := tv.profile, machine := tv.machine, panic := tv.panic,
    handlers := tv.handlers, backtrace := tv.backtrace, battery := tv.battery }

/-! ## Profiles: discovery and lookup -/

/-- `ideapad::Profile` (external crate; spec §3): a named bundle of
hardware command templates plus the expected product names used for
auto-detection. Only the name and the detection list matter for the
claims; the command templates are opaque. -/
structure Profile : Type where
  name : String
  expectedProductNames : List String
deriving DecidableEq, Repr

/-- `ExternalProfile` from `src/project_paths/profiles.rs` lines 26–29. -/
structure ExternalProfile : Type where
  profile : Profile
  path : String
deriving DecidableEq, Repr

/-- `enum BuiltInProfile` (config.rs lines 22–25). -/
inductive BuiltInProfile : Type where
  | ideapad15IIL05 : BuiltInProfile
  | ideapad15Amd : BuiltInProfile
deriving DecidableEq, Repr

/-- The two built-in profile constants `Profile::IDEAPAD_15IIL05` and
`Profile::IDEAPAD_AMD` of the external `ideapad` crate (referenced by
`BuiltInProfile::get`, config.rs lines 28–33); their contents live outside
this repository, so they are parameters of the model. -/
structure BuiltInProfileData : Type where
  iil05 : Profile
  amd : Profile

/-- `BuiltInProfile::get` (config.rs lines 28–33). -/
def BuiltInProfile.get (c : BuiltInProfileData) : BuiltInProfile → Profile
  | .ideapad15IIL05 => c.iil05
  | .ideapad15Amd => c.amd

/-- `enum PossiblyBuiltInProfile` (config.rs lines 36–39). -/
inductive PossiblyBuiltInProfile : Type where
  | builtIn : BuiltInProfile → PossiblyBuiltInProfile
  | external : ExternalProfile → PossiblyBuiltInProfile
deriving DecidableEq, Repr

/-- `PossiblyBuiltInProfile::get` (config.rs lines 46–51). -/
def PossiblyBuiltInProfile.get (c : BuiltInProfileData) :
    PossiblyBuiltInProfile → Profile
  | .builtIn p => p.get c
  | .external e => e.profile

/-- `struct Profiles(pub Vec<ExternalProfile>)` (config.rs line 597). -/
structure Profiles : Type where
  externals : List ExternalProfile
deriving DecidableEq, Repr

/-- `Profiles::with_built_ins` (config.rs lines 622–627): the two built-in
profiles in their declared order, then the external profiles. -/
def Profiles.withBuiltIns (ps : Profiles) : List PossiblyBuiltInProfile :=
  [PossiblyBuiltInProfile.builtIn .ideapad15IIL05,
   PossiblyBuiltInProfile.builtIn .ideapad15Amd]
    ++ ps.externals.map PossiblyBuiltInProfile.external

/-- `Profiles::find` (config.rs lines 616–620): map `with_built_ins`
through `get` and return the first profile whose name equals `name`. -/
def Profiles.find (c : BuiltInProfileData) (ps : Profiles) (name : String) :
    Option Profile :=
  (ps.withBuiltIns.map (PossiblyBuiltInProfile.get c)).find?
    fun profile => profile.name == name

/-- `struct Config` (config.rs lines 632–635), restricted to the fields
the claims touch. -/
structure Config : Type where
  tuxvantage : TuxVantage
  profiles : Profiles

/-- `Config::default_profile` (config.rs lines 710–718): `None` when no
profile name resolves; otherwise the result of looking the resolved name
up, with a not-found error when the lookup misses. -/
def Config.defaultProfile (c : BuiltInProfileData) (cfg : Config) :
    Option (Except String Profile) :=
  match cfg.tuxvantage.resolveProfile with
  | none => none
  | some name =>
    some (match cfg.profiles.find c name with
      | some profile => .ok profile
      | none => .error ("the default profile '" ++ name ++ "' does not exist"))

/-! ## External profile discovery (`src/project_paths/profiles.rs`) -/

/-- One directory entry of the profiles directory, as seen by the iterator
in profiles.rs lines 31–55: its path and the outcome of reading its
contents (`fs::read_to_string`, an external effect, is modelled by the
recorded outcome). -/
structure ProfileDirEntry : Type where
  path : String
  contents : Except String String

/-- `inner` in `impl Iterator for Profiles` (profiles.rs lines 35–51):
read the entry's contents, then parse them; each stage's failure becomes
this entry's error. The JSON parser (`serde_json::from_str`, external) is
a parameter. -/
def loadProfileEntry (parse : String → Except String Profile)
    (e : ProfileDirEntry) : Except String ExternalProfile :=
  match e.contents with
  | .error _ => .error ("failed to read contents of profile " ++ e.path)
  | .ok contents =>
    match parse contents with
    | .error _ => .error ("failed to deserialize contents of profile " ++ e.path)
    | .ok profile => .ok { profile := profile, path := e.path }

/-- The full iterator of profiles.rs lines 31–55: one fallible item per
directory entry; a failing entry yields an `error` item and iteration
continues with the next entry. -/
def profileDirResults (parse : String → Except String Profile)
    (entries : List ProfileDirEntry) : List (Except String ExternalProfile) :=
  entries.map (loadProfileEntry parse)

/-- The accumulation loop of `Profiles::get` (config.rs lines 600–614):
`Ok` items are pushed onto the profile list, `Err` items onto the error
list, in iteration order. -/
def profilesGetLoop (results : List (Except String ExternalProfile)) :
    Profiles × List String :=
  match results with
  | [] => (⟨[]⟩, [])
  | r :: rest =>
    let acc := profilesGetLoop rest
    match r with
    | .ok profile => (⟨profile :: acc.1.externals⟩, acc.2)
    | .error e => (acc.1, e :: acc.2)

/-- `Profiles::get` (config.rs lines 600–614): always returns `Ok` of the
accumulated pair once the directory handle exists (the only `?` in its
body is on obtaining that handle). -/
def Profiles.getResult (parse : String → Except String Profile)
    (entries : List ProfileDirEntry) :
    Except String (Profiles × List String) :=
  .ok (profilesGetLoop (profileDirResults parse entries))

/-! ## The regulation loop (`regulate`, battery_conservation.rs) -/

/-- A hardware feature call issued by the regulation loop: enable or
disable battery conservation. -/
inductive Call : Type where
  | enable : Call
  | disable : Call
deriving DecidableEq, Repr

/-- Rust `f32::round`: round half away from zero
(battery_conservation.rs line 313), on the exact rational model. -/
def roundHalfAwayFromZero (x : ℚ) : ℤ :=
  if 0 ≤ x then ⌊x + 1 / 2⌋ else ⌈x - 1 / 2⌉

/-- `(battery.state_of_charge().value * 100.0).round() as u8`
(battery_conservation.rs line 313): scale the charge fraction to a
percentage, round half away from zero, then apply Rust's saturating
float→`u8` cast. -/
def batteryLevelOfCharge (charge : ℚ) : Nat :=
  (min 255 (max 0 (roundHalfAwayFromZero (charge * 100)))).toNat

/-- The per-cycle decision of the loop body (battery_conservation.rs
lines 325–339): enable when `battery_level >= threshold`, else disable. -/
def cycleCall (threshold : Nat) (charge : ℚ) : Call :=
  if batteryLevelOfCharge charge ≥ threshold then .enable else .disable

/-- The calls issued over a fixture sequence of charge fractions, one
polling cycle per element (the loop body of battery_conservation.rs
lines 312–344 with the cooldown race always won by the timer). -/
def pollCalls (threshold : Nat) (charges : List ℚ) : List Call :=
  charges.map (cycleCall threshold)

/-- An observable event of the regulation loop. -/
inductive RegEvent : Type where
  | call : Call → RegEvent
  | refreshBattery : RegEvent
  | signalReceived : RegEvent
deriving DecidableEq, Repr

/-- The events of one polling cycle before the cooldown race
(battery_conservation.rs lines 312–344): the threshold-decided feature
call, then the battery refresh. -/
def cycleEvents (threshold : Nat) (charge : ℚ) : List RegEvent :=
  [.call (cycleCall threshold charge), .refreshBattery]

/-- A run of the regulation loop (battery_conservation.rs lines 312–364)
in which the termination signal wins the cooldown race of cycle
`sigCycle` (0-based): every earlier race is won by the timer and the loop
continues. On the signal the loop appends the signal notification, issues
the unconditional terminal enable, and breaks with `Ok(())` (modelled by
the `Bool` success flag). `charges i` is the charge fraction the battery
reports on cycle `i`. -/
def regulateRun (threshold : Nat) (charges : Nat → ℚ) (sigCycle : Nat) :
    List RegEvent × Bool :=
  match sigCycle with
  | 0 =>
    (cycleEvents threshold (charges 0) ++ [.signalReceived, .call .enable], true)
  | n + 1 =>
    let rest := regulateRun threshold (fun i => charges (i + 1)) n
    (cycleEvents threshold (charges 0) ++ rest.1, rest.2)

/-! ## Lock usage of `regulate` -/

/-- The lock-relevant steps of the non-install path of `regulate`
(battery_conservation.rs lines 125–365), in source order. -/
inductive RegStep : Type where
  | acquireWrite : RegStep
  | setBatteryOverride : RegStep
  | resolveBatteryConfig : RegStep
  | findBattery : RegStep
  | snapshotSettings : RegStep
  | pollCycle : RegStep
  | sleepRace : RegStep
  | terminalEnable : RegStep
  | returnOk : RegStep
  | dropWriteGuard : RegStep
deriving DecidableEq, Repr

/-- The two steps of one loop iteration: the poll-and-toggle body, then
the blocking cooldown sleep / signal race (`crossbeam::select!`,
battery_conservation.rs lines 346–363). -/
def cycleSteps : List RegStep := [.pollCycle, .sleepRace]

/-- The step sequence of the non-install path of `regulate` when the
signal wins the race of cycle `cycles` (0-based): `config::write()` at
function entry (line 132), the battery override installation (line 196),
the config resolution (line 202), the battery lookup (line 203), the
cooldown/threshold/handler snapshot (lines 288–291), then the polling
cycles, the terminal enable (lines 355–360), `break Ok(())` (line 361),
and — only then, at function exit — the drop of the write guard, which is
held by the local `config` for the whole function body (it is never
dropped or downgraded earlier). -/
def regulateSteps (cycles : Nat) : List RegStep :=
  RegStep.acquireWrite ::
    ([.setBatteryOverride, .resolveBatteryConfig, .findBattery, .snapshotSettings]
      ++ (List.replicate (cycles + 1) cycleSteps).flatten
      ++ [.terminalEnable, .returnOk])
    ++ [RegStep.dropWriteGuard]

/-- How one step changes whether the exclusive write lock of the
configuration store is held. -/
def lockDelta (s : RegStep) (held : Bool) : Bool :=
  match s with
  | .acquireWrite => true
  | .dropWriteGuard => false
  | _ => held

/-- Each step paired with whether the write lock is held while that step
executes, starting from lock state `held`. -/
def lockTrace (steps : List RegStep) (held : Bool) : List (RegStep × Bool) :=
  match steps with
  | [] => []
  | s :: rest => (s, lockDelta s held) :: lockTrace rest (lockDelta s held)

/-! ## Decimal digit strings (Rust integer/float parse and display) -/

/-- The character of a decimal digit. -/
def decimalDigitChar (d : Nat) : Char := Char.ofNat (48 + d)

/-- The decimal digit string of a natural number, as rendered by Rust's
integer `Display`. -/
def natToDigits (n : Nat) : List Char :=
  if n < 10 then [decimalDigitChar n]
  else natToDigits (n / 10) ++ [decimalDigitChar (n % 10)]
decreasing_by exact Nat.div_lt_self (by omega) (by omega)

/-- The numeric value of one decimal digit character. -/
def charToDigit (c : Char) : Option Nat :=
  if '0' ≤ c ∧ c ≤ '9' then some (c.toNat - 48) else none

/-- Accumulating decimal parse: fails on the first non-digit. -/
def parseDigitsAux (cs : List Char) (acc : Nat) : Option Nat :=
  match cs with
  | [] => some acc
  | c :: rest =>
    match charToDigit c with
    | none => none
    | some d => parseDigitsAux rest (acc * 10 + d)

/-- Parse a non-empty all-digit string. -/
def parseNatDigits (cs : List Char) : Option Nat :=
  match cs with
  | [] => none
  | _ => parseDigitsAux cs 0

/-- Rust `str::trim_end_matches(c)`: remove every trailing occurrence of
`c`. -/
def trimEndMatches (c : Char) (cs : List Char) : List Char :=
  (cs.reverse.dropWhile (· = c)).reverse

/-- The optional leading `+` sign accepted by Rust's unsigned integer
parse. -/
def stripLeadingPlus (cs : List Char) : List Char :=
  match cs with
  | c :: rest => if c = '+' then rest else cs
  | [] => cs

/-- Rust `str::parse::<u8>`: an optional `+`, then a non-empty digit
string whose value fits in a `u8`. -/
def parseU8 (cs : List Char) : Option Nat :=
  match parseNatDigits (stripLeadingPlus cs) with
  | some v => if v ≤ 255 then some v else none
  | none => none

/-- Rust `str::parse::<u64>`: an optional `+`, then a non-empty digit
string whose value fits in a `u64`. -/
def parseU64 (cs : List Char) : Option Nat :=
  match parseNatDigits (stripLeadingPlus cs) with
  | some v => if v < 2 ^ 64 then some v else none
  | none => none

/-! ## BatteryLevel parse and display -/

/-- `impl FromStr for BatteryLevel` (config.rs lines 272–283): strip
every trailing `%`, parse as `u8`, then range-check through
`BatteryLevel::new`. -/
def BatteryLevel.fromStrChars (cs : List Char) : Except String BatteryLevel :=
  match parseU8 (trimEndMatches '%' cs) with
  | none => .error "number given wasn't valid"
  | some v =>
    match BatteryLevel.new v with
    | some b => .ok b
    | none => .error "is out of bounds (must be within 0 and 100 inclusive)"

/-- String-level wrapper of `BatteryLevel.fromStrChars`. -/
def BatteryLevel.fromStr (s : String) : Except String BatteryLevel :=
  BatteryLevel.fromStrChars s.data

/-- `impl fmt::Display for BatteryLevel` (config.rs lines 291–295):
`write!(f, "{}%", self.0)`. -/
def BatteryLevel.displayChars (b : BatteryLevel) : List Char :=
  natToDigits b.level ++ ['%']

/-- String-level wrapper of `BatteryLevel.displayChars`. -/
def BatteryLevel.display (b : BatteryLevel) : String :=
  b.displayChars.asString

/-! ## CoolDown parse and display

`str::parse::<f64>` and the `f64` `Display` implementation are external
to the repository; they are modelled on finite decimal numerals with
exact rational values, the fragment the spec's claims quantify over. -/

/-- Split a character list at its first `.`, if any. -/
def splitAtDot : List Char → Option (List Char × List Char)
  | [] => none
  | c :: cs =>
    if c = '.' then some ([], cs)
    else (splitAtDot cs).map fun p => (c :: p.1, p.2)

/-- Parse a possibly-empty digit string (the integer or fractional part
of a decimal numeral; an empty part contributes zero). -/
def parseDigitsOrEmpty (cs : List Char) : Option Nat :=
  match cs with
  | [] => some 0
  | _ => parseDigitsAux cs 0

/-- Model of `str::parse::<f64>` on finite decimal numerals: either a
non-empty digit string, or `intpart.fracpart` with digit parts not both
empty, valued exactly. -/
def parseDecimalQ (cs : List Char) : Option ℚ :=
  match splitAtDot cs with
  | none => (parseNatDigits cs).map fun v => (v : ℚ)
  | some (ip, fp) =>
    if ip = [] ∧ fp = [] then none
    else
      match parseDigitsOrEmpty ip, parseDigitsOrEmpty fp with
      | some a, some b => some ((a : ℚ) + (b : ℚ) / (10 : ℚ) ^ fp.length)
      | _, _ => none

/-- `impl FromStr for CoolDown` (config.rs lines 304–330): strip every
trailing `s`, try the `f64` parse, fall back to the `u64` parse, and wrap
the resulting seconds as a duration (`from_secs_f64` / `from_secs`,
exact on this fragment). -/
def CoolDown.fromStrChars (cs : List Char) : Except String CoolDown :=
  let s := trimEndMatches 's' cs
  match (parseDecimalQ s).orElse fun _ => (parseU64 s).map (fun v => (v : ℚ)) with
  | some q => .ok ⟨q⟩
  | none => .error "value wasn't a valid double or number"

/-- String-level wrapper of `CoolDown.fromStrChars`. -/
def CoolDown.fromStr (s : String) : Except String CoolDown :=
  CoolDown.fromStrChars s.data

/-- The number of times `p` divides `n`. -/
def factorCount (p n : Nat) : Nat :=
  if h : 2 ≤ p ∧ 1 ≤ n ∧ p ∣ n then factorCount p (n / p) + 1 else 0
decreasing_by
  exact Nat.div_lt_self (by omega) (by omega)

/-- The number of decimal digits after the point in the exact decimal
form of `q` (meaningful when `q.den` has only the prime factors 2 and
5). -/
def fracDecimalDigits (q : ℚ) : Nat :=
  max (factorCount 2 q.den) (factorCount 5 q.den)

/-- `impl fmt::Display for CoolDown` (config.rs lines 338–348): a whole
number of seconds prints as the integer (`duration as u64`); otherwise
the fractional seconds value prints in decimal (`f64` `Display`,
modelled as the exact shortest decimal form on the finite-decimal
fragment). -/
def CoolDown.displayChars (c : CoolDown) : List Char :=
  let q := c.secs
  if q.den = 1 then natToDigits q.num.toNat
  else
    let k := fracDecimalDigits q
    let n := (q * (10 : ℚ) ^ k).num.toNat
    let ds := natToDigits n
    let pad := List.replicate (k + 1 - ds.length) '0' ++ ds
    pad.take (pad.length - k) ++ '.' :: pad.drop (pad.length - k)

/-- String-level wrapper of `CoolDown.displayChars`. -/
def CoolDown.display (c : CoolDown) : String :=
  c.displayChars.asString

/-- The error carried by a failed per-file result, if any. -/
def errOf : Except String ExternalProfile → Option String
  | .ok _ => none
  | .error e => some e

/-! # Helper lemmas -/

theorem boolLayer_threeTier (ov persisted : Bool) :
    threeTierSpec (boolLayer ov) (boolLayer persisted) false = (ov || persisted) := by
  cases ov <;> cases persisted <;> rfl

theorem orElse_threeTierOpt {α : Type} (o p : Option α) :
    (o.orElse fun _ => p) = threeTierOptSpec o p := by
  cases o <;> rfl

theorem getD_threeTier {α : Type} (o : Option α) (d : α) :
    o.getD d = threeTierSpec o none d := by
  cases o <;> rfl

/-! # C1: three-tier precedence of the resolution methods -/

/-- C1: for every configuration state, each resolution method of the
configuration store (`profile`, `machine`, `handlers`, `battery_config`
with its accessors, `backtrace`, `panic`) returns the override value when
an override is present, else the persisted value when present, else the
compiled-in default. Boolean fields encode "present" as the flag being
set (`boolLayer`), with compiled-in default `false`. -/
theorem config_resolution_three_tier (tv : TuxVantage) :
    tv.resolveProfile = threeTierOptSpec tv.overrides.profile tv.profile ∧
    tv.resolveMachine
      = threeTierSpec tv.overrides.machine tv.machine Machine.auto ∧
    tv.resolveHandlers.defaultResolved
      = threeTierSpec tv.overrides.handlers.default tv.handlers.default
          Handler.switch ∧
    tv.resolveHandlers.batteryConservationResolved
      = threeTierSpec tv.overrides.handlers.battery_conservation
          tv.handlers.battery_conservation
          (threeTierSpec tv.overrides.handlers.default tv.handlers.default
            Handler.switch) ∧
    tv.resolveHandlers.rapidChargingResolved
      = threeTierSpec tv.overrides.handlers.rapid_charging
          tv.handlers.rapid_charging
          (threeTierSpec tv.overrides.handlers.default tv.handlers.default
            Handler.switch) ∧
    tv.resolveBatteryConfig.matchesResolved
      = threeTierSpec tv.overrides.battery.matchesPred tv.battery.matchesPred
          BatteryMatches.first ∧
    tv.resolveBatteryConfig.thresholdResolved
      = threeTierSpec tv.overrides.battery.threshold tv.battery.threshold
          BatteryLevel.DEFAULT ∧
    tv.resolveBatteryConfig.cooldownResolved
      = threeTierSpec tv.overrides.battery.cooldown tv.battery.cooldown
          CoolDown.DEFAULT ∧
    tv.resolveBatteryConfig.infallible
      = threeTierSpec (boolLayer tv.overrides.battery.infallible)
          (boolLayer tv.battery.infallible) false ∧
    tv.resolvePanic
      = threeTierSpec (boolLayer tv.overrides.panic) (boolLayer tv.panic)
          false ∧
    tv.resolveBacktrace.panics
      = threeTierSpec (boolLayer tv.overrides.backtrace.panics)
          (boolLayer tv.backtrace.panics) false ∧
    tv.resolveBacktrace.errors
      = threeTierSpec (boolLayer tv.overrides.backtrace.errors)
          (boolLayer tv.backtrace.errors) false := by
  obtain ⟨p, m, pa, ⟨hd, hbc, hrc⟩, ⟨btp, bte⟩, ⟨bm, bi, bth, bcd⟩,
    op, ⟨ohd, ohbc, ohrc⟩, om, ⟨obtp, obte⟩, ⟨obm, obi, obth, obcd⟩, opa⟩ := tv
  refine ⟨?_, ?_, ?_, ?_, ?_, ?_, ?_, ?_, ?_, ?_, ?_, ?_⟩
  · cases op <;> rfl
  · cases om <;> cases m <;> rfl
  · cases ohd <;> cases hd <;> rfl
  · cases ohbc <;> cases hbc <;> cases ohd <;> cases hd <;> rfl
  · cases ohrc <;> cases hrc <;> cases ohd <;> cases hd <;> rfl
  · cases obm <;> cases bm <;> rfl
  · cases obth <;> cases bth <;> rfl
  · cases obcd <;> cases bcd <;> rfl
  · cases obi <;> cases bi <;> rfl
  · cases opa <;> cases pa <;> rfl
  · cases obtp <;> cases btp <;> rfl
  · cases obte <;> cases bte <;> rfl

/-! # C9: persisted per-feature handlers beat an overridden global default -/

/-- C9: when the overrides set only the global default handler and the
persisted config sets a per-feature handler, the resolved handler for
that feature is the persisted per-feature one, not the overridden global
default; with no per-feature handler in either layer the resolution
falls back to the (merged) global default, and with no handler anywhere
to `Switch`. -/
theorem per_feature_handler_beats_overridden_default
    (tv : TuxVantage) (h hp : Handler) :
    (tv.overrides.handlers.battery_conservation = none →
      tv.overrides.handlers.default = some h →
      tv.handlers.battery_conservation = some hp →
      tv.resolveHandlers.batteryConservationResolved = hp) ∧
    (tv.overrides.handlers.rapid_charging = none →
      tv.overrides.handlers.default = some h →
      tv.handlers.rapid_charging = some hp →
      tv.resolveHandlers.rapidChargingResolved = hp) ∧
    (tv.overrides.handlers.battery_conservation = none →
      tv.handlers.battery_conservation = none →
      tv.overrides.handlers.default = some h →
      tv.resolveHandlers.batteryConservationResolved = h) ∧
    (tv.overrides.handlers.battery_conservation = none →
      tv.handlers.battery_conservation = none →
      tv.overrides.handlers.default = none →
      tv.handlers.default = none →
      tv.resolveHandlers.batteryConservationResolved = Handler.switch) := by
  refine ⟨fun h1 h2 h3 => ?_, fun h1 h2 h3 => ?_,
    fun h1 h2 h3 => ?_, fun h1 h2 h3 h4 => ?_⟩ <;>
    simp [TuxVantage.resolveHandlers, Handlers.batteryConservationResolved,
      Handlers.rapidChargingResolved, Handlers.defaultResolved,
      h1, h2, h3, Option.orElse]
  simp [h4]

/-- Witness for C9 at a concrete configuration: overrides set only the
global default (`Error`), the persisted config sets the per-feature
battery-conservation handler (`Ignore`); resolution yields `Ignore`. -/
theorem per_feature_handler_beats_overridden_default_witness :
    (TuxVantage.resolveHandlers
      { profile := none, machine := none, panic := false,
        handlers := { default := none,
                      battery_conservation := some Handler.ignore,
                      rapid_charging := none },
        backtrace := Backtrace.DEFAULT, battery := BatteryConfig.DEFAULT,
        overrides :=
          { profile := none,
            handlers := { default := some Handler.error,
                          battery_conservation := none,
                          rapid_charging := none },
            machine := none, backtrace := Backtrace.DEFAULT,
            battery := BatteryConfig.DEFAULT,
            panic := false } }).batteryConservationResolved
      = Handler.ignore :=
  (per_feature_handler_beats_overridden_default _ Handler.error
    Handler.ignore).1 rfl rfl rfl

/-! # C10: dump never writes the override layer -/

/-- C10: the serialised output of `TuxVantage::dump` is a function of the
persisted-shape fields only; it is identical for all values of the
`overrides` field, so process-lifetime overrides cannot leak into the
persisted file. -/
theorem dump_ignores_overrides (tv : TuxVantage) (ov ov' : Overrides) :
    TuxVantage.dumpContents { tv with overrides := ov }
      = TuxVantage.dumpContents { tv with overrides := ov' } ∧
    TuxVantage.dumpContents tv
      = TuxVantage.dumpContents { tv with overrides := Overrides.DEFAULT } := by
  exact ⟨rfl, rfl⟩

/-! # C2: terminal enable after a termination signal -/

theorem signal_not_mem_cycleEvents (t : Nat) (q : ℚ) :
    RegEvent.signalReceived ∉ cycleEvents t q := by
  simp [cycleEvents]

theorem dropWhile_append_of_forall {α : Type} (p : α → Bool)
    (l₁ l₂ : List α) (h : ∀ x ∈ l₁, p x = true) :
    (l₁ ++ l₂).dropWhile p = l₂.dropWhile p := by
  induction l₁ with
  | nil => rfl
  | cons x xs ih =>
    have hx : p x = true := h x (by simp)
    simp only [List.cons_append, List.dropWhile_cons, hx, if_true]
    exact ih fun y hy => h y (by simp [hy])

/-- C2: in every run of the regulation loop in which the termination
signal wins the cooldown race — at any cycle, over any sequence of
battery charges — the loop issues exactly one signal notification, the
events from the signal on are exactly the single unconditional
enable-conservation call (it is the last event and is not subject to the
threshold comparison), and the run terminates successfully. -/
theorem regulate_signal_terminal_enable (threshold : Nat)
    (charges : Nat → ℚ) (sigCycle : Nat) :
    (regulateRun threshold charges sigCycle).2 = true ∧
    (regulateRun threshold charges sigCycle).1.count RegEvent.signalReceived
      = 1 ∧
    ((regulateRun threshold charges sigCycle).1.dropWhile
        fun e => e != RegEvent.signalReceived)
      = [RegEvent.signalReceived, RegEvent.call Call.enable] := by
  induction sigCycle generalizing charges with
  | zero =>
    refine ⟨rfl, ?_, ?_⟩
    · simp [regulateRun, cycleEvents]
    · simp only [regulateRun]
      rw [dropWhile_append_of_forall]
      · rfl
      · intro x hx
        simp only [cycleEvents, List.mem_cons, List.not_mem_nil, or_false] at hx
        rcases hx with h | h <;> simp [h]
  | succ n ih =>
    obtain ⟨ih1, ih2, ih3⟩ := ih fun i => charges (i + 1)
    refine ⟨ih1, ?_, ?_⟩
    · simp only [regulateRun, List.count_append]
      rw [ih2]
      simp [cycleEvents]
    · simp only [regulateRun]
      rw [dropWhile_append_of_forall]
      · exact ih3
      · intro x hx
        simp only [cycleEvents, List.mem_cons, List.not_mem_nil, or_false] at hx
        rcases hx with h | h <;> simp [h]

/-! # C3: rounding, threshold comparison, and the fixture sequence -/

/-- C3: on every cycle, a charge fraction in [0, 1] is converted to an
integer percentage by round-half-away-from-zero (the saturating `u8`
cast never distorts it, and it lands in [0, 100]); conservation is
enabled exactly when that percentage is `>=` the threshold; a charge
exactly at the threshold triggers enable; and the fixture sequence
[50, 85, 50] against threshold 80 yields [disable, enable, disable]. -/
theorem regulate_rounding_threshold_fixture :
    (∀ q : ℚ, 0 ≤ q → q ≤ 1 →
      (batteryLevelOfCharge q : ℤ) = roundHalfAwayFromZero (q * 100) ∧
      roundHalfAwayFromZero (q * 100) = ⌊q * 100 + 1 / 2⌋ ∧
      batteryLevelOfCharge q ≤ 100) ∧
    (∀ (t : Nat) (q : ℚ),
      cycleCall t q = Call.enable ↔ t ≤ batteryLevelOfCharge q) ∧
    (∀ t : Nat, t ≤ 100 → cycleCall t ((t : ℚ) / 100) = Call.enable) ∧
    pollCalls 80 [50 / 100, 85 / 100, 50 / 100]
      = [Call.disable, Call.enable, Call.disable] := by
  have key : ∀ q : ℚ, 0 ≤ q → q ≤ 1 →
      (batteryLevelOfCharge q : ℤ) = roundHalfAwayFromZero (q * 100) ∧
      roundHalfAwayFromZero (q * 100) = ⌊q * 100 + 1 / 2⌋ ∧
      batteryLevelOfCharge q ≤ 100 := by
    intro q h0 h1
    have hx0 : (0 : ℚ) ≤ q * 100 := by positivity
    have hflo : roundHalfAwayFromZero (q * 100) = ⌊q * 100 + 1 / 2⌋ := by
      simp [roundHalfAwayFromZero, hx0]
    have h0f : (0 : ℤ) ≤ ⌊q * 100 + 1 / 2⌋ := by
      apply Int.le_floor.mpr
      push_cast
      linarith
    have h100 : ⌊q * 100 + 1 / 2⌋ ≤ 100 := by
      have hle : q * 100 + 1 / 2 ≤ (100 : ℚ) + 1 / 2 := by nlinarith
      calc ⌊q * 100 + 1 / 2⌋ ≤ ⌊(100 : ℚ) + 1 / 2⌋ := Int.floor_le_floor hle
        _ = 100 := by norm_num
    have hbl : batteryLevelOfCharge q = (⌊q * 100 + 1 / 2⌋).toNat := by
      rw [batteryLevelOfCharge, hflo, max_eq_right h0f,
        min_eq_right (by omega)]
    refine ⟨?_, hflo, ?_⟩
    · rw [hbl, hflo, Int.toNat_of_nonneg h0f]
    · rw [hbl]
      omega
  refine ⟨key, ?_, ?_, ?_⟩
  · intro t q
    simp only [cycleCall, ge_iff_le]
    split_ifs with h <;> simp [h]
  · intro t ht
    have hmul : ((t : ℚ) / 100) * 100 = (t : ℚ) := by
      field_simp
    have hfl : ⌊(t : ℚ) + 1 / 2⌋ = (t : ℤ) := by
      have hrw : ((t : ℚ) + 1 / 2) = 1 / 2 + ((t : ℤ) : ℚ) := by
        push_cast
        ring
      rw [hrw, Int.floor_add_int]
      norm_num
    have hbl : batteryLevelOfCharge ((t : ℚ) / 100) = t := by
      have h0q : (0 : ℚ) ≤ ((t : ℚ) / 100) * 100 := by positivity
      rw [batteryLevelOfCharge, roundHalfAwayFromZero, if_pos h0q, hmul, hfl]
      omega
    simp [cycleCall, hbl]
  · with_unfolding_all rfl

/-- Witness for C3: charge 17/20 (85%) satisfies the rounding equations,
and a charge exactly at threshold 80 triggers enable. -/
theorem regulate_rounding_threshold_fixture_witness :
    ((batteryLevelOfCharge (17 / 20) : ℤ)
        = roundHalfAwayFromZero ((17 / 20) * 100) ∧
      roundHalfAwayFromZero ((17 / 20) * 100)
        = ⌊(17 / 20 : ℚ) * 100 + 1 / 2⌋ ∧
      batteryLevelOfCharge (17 / 20) ≤ 100) ∧
    cycleCall 80 ((80 : ℚ) / 100) = Call.enable :=
  ⟨regulate_rounding_threshold_fixture.1 (17 / 20) (by norm_num) (by norm_num),
   regulate_rounding_threshold_fixture.2.2.1 80 (by norm_num)⟩

/-! # C4: lock usage of the regulation loop -/

theorem lockDelta_true_of_ne_drop (s : RegStep)
    (h : s ≠ RegStep.dropWriteGuard) : lockDelta s true = true := by
  cases s <;> first | rfl | exact absurd rfl h

theorem lockTrace_held_until_drop (l : List RegStep)
    (hl : RegStep.dropWriteGuard ∉ l) (s : RegStep) (b : Bool)
    (hmem : (s, b) ∈ lockTrace (l ++ [RegStep.dropWriteGuard]) true)
    (hs : s ≠ RegStep.dropWriteGuard) : b = true := by
  induction l with
  | nil =>
    simp only [List.nil_append, lockTrace, lockDelta, List.mem_cons,
      List.not_mem_nil, or_false, Prod.mk.injEq] at hmem
    exact absurd hmem.1 hs
  | cons x xs ih =>
    have hx : x ≠ RegStep.dropWriteGuard := fun h => hl (h ▸ List.mem_cons_self x xs)
    have hxs : RegStep.dropWriteGuard ∉ xs := fun h => hl (List.mem_cons_of_mem x h)
    rw [List.cons_append, lockTrace, lockDelta_true_of_ne_drop x hx] at hmem
    rcases List.mem_cons.mp hmem with h | h
    · exact (Prod.mk.injEq .. ▸ h).2
    · exact ih hxs h

theorem dropWriteGuard_not_mem_flatten_cycles (n : Nat) :
    RegStep.dropWriteGuard ∉ (List.replicate n cycleSteps).flatten := by
  intro h
  obtain ⟨l, hl, hmem⟩ := List.mem_flatten.mp h
  rw [List.eq_of_mem_replicate hl] at hmem
  simp [cycleSteps] at hmem

theorem count_snapshot_flatten_cycles (n : Nat) :
    (List.replicate n cycleSteps).flatten.count RegStep.snapshotSettings = 0 := by
  induction n with
  | zero => rfl
  | succ m ih =>
    rw [List.replicate_succ, List.flatten_cons, List.count_append, ih]
    rfl

/-- C4 (amended): the regulation loop acquires the configuration store's
exclusive write lock at entry and holds it for the whole regulation —
including while blocked in every cooldown sleep/signal race — releasing
it only when the function returns; the resolved values
(cooldown, threshold, handler) are snapshotted exactly once, before the
loop. -/
theorem regulate_write_lock_held_during_sleep (cycles : Nat) (b : Bool) :
    ((RegStep.sleepRace, b) ∈ lockTrace (regulateSteps cycles) false →
      b = true) ∧
    (regulateSteps cycles).count RegStep.snapshotSettings = 1 := by
  constructor
  · intro hmem
    rw [regulateSteps, List.cons_append, lockTrace] at hmem
    rcases List.mem_cons.mp hmem with h | h
    · exact absurd (Prod.mk.injEq .. ▸ h).1 (by simp)
    · refine lockTrace_held_until_drop _ ?_ RegStep.sleepRace b h (by simp)
      intro hd
      rcases List.mem_append.mp hd with hd | hd
      · rcases List.mem_append.mp hd with hd | hd
        · simp at hd
        · exact dropWriteGuard_not_mem_flatten_cycles _ hd
      · simp at hd
  · rw [regulateSteps]
    simp [List.count_append, List.count_cons, count_snapshot_flatten_cycles]

/-- Witness for the amended C4 at a concrete run: in the single-cycle
run the sleep race occurs with the write lock held, and the settings
snapshot happens exactly once. -/
theorem regulate_write_lock_held_during_sleep_witness :
    true = true ∧ (regulateSteps 0).count RegStep.snapshotSettings = 1 :=
  ⟨(regulate_write_lock_held_during_sleep 0 true).1 (by decide),
   (regulate_write_lock_held_during_sleep 0 true).2⟩

/-- Counterexample to C4 as stated: in the run of the regulation loop
that receives the signal during its first cooldown race, the
sleep/signal race executes with the configuration store's exclusive
write lock held (the guard taken at function entry is never dropped or
downgraded before the race). -/
theorem regulate_sleep_lock_counterexample :
    (RegStep.sleepRace, true) ∈ lockTrace (regulateSteps 0) false := by
  decide

/-! # C5: profile lookup scans built-ins then externals, first exact match -/

theorem find?_eq_some_split {α : Type} (p : α → Bool) (l : List α) (a : α)
    (h : l.find? p = some a) :
    p a = true ∧ ∃ l₁ l₂, l = l₁ ++ a :: l₂ ∧ ∀ x ∈ l₁, p x = false := by
  induction l with
  | nil => exact absurd h (by simp)
  | cons x xs ih =>
    rw [List.find?_cons] at h
    by_cases hp : p x = true
    · rw [hp] at h
      obtain rfl : x = a := by injection h
      exact ⟨hp, [], xs, rfl, by simp⟩
    · rw [Bool.not_eq_true] at hp
      rw [hp] at h
      obtain ⟨ha, l₁, l₂, rfl, hall⟩ := ih h
      refine ⟨ha, x :: l₁, l₂, rfl, ?_⟩
      intro y hy
      rcases List.mem_cons.mp hy with rfl | hy
      · exact hp
      · exact hall y hy

theorem profiles_find_eq_scan (c : BuiltInProfileData) (ps : Profiles)
    (name : String) :
    Profiles.find c ps name
      = (([c.iil05, c.amd] ++ ps.externals.map ExternalProfile.profile).find?
          fun profile => profile.name == name) := by
  unfold Profiles.find Profiles.withBuiltIns
  simp [List.map_append, List.map_map, Function.comp_def,
    PossiblyBuiltInProfile.get, BuiltInProfile.get]

/-- C5: resolving a profile by explicit name scans the two built-in
profiles first, in their declared order, then the external profiles, and
returns the first profile whose name is an exact match (everything
before it in the scan order mismatches); when nothing matches it returns
nothing, and `Config::default_profile` turns that into a not-found
error. -/
theorem profile_find_scans_builtins_then_externals
    (c : BuiltInProfileData) (ps : Profiles) (name : String) :
    (Profiles.find c ps name
      = (([c.iil05, c.amd] ++ ps.externals.map ExternalProfile.profile).find?
          fun profile => profile.name == name)) ∧
    (∀ p, Profiles.find c ps name = some p →
      p.name = name ∧
      ∃ l₁ l₂,
        [c.iil05, c.amd] ++ ps.externals.map ExternalProfile.profile
          = l₁ ++ p :: l₂ ∧
        ∀ q ∈ l₁, q.name ≠ name) ∧
    (Profiles.find c ps name = none ↔
      ∀ p ∈ [c.iil05, c.amd] ++ ps.externals.map ExternalProfile.profile,
        p.name ≠ name) ∧
    (∀ tv : TuxVantage, tv.resolveProfile = some name →
      Profiles.find c ps name = none →
      Config.defaultProfile c ⟨tv, ps⟩
        = some (Except.error
            ("the default profile '" ++ name ++ "' does not exist"))) := by
  refine ⟨profiles_find_eq_scan c ps name, ?_, ?_, ?_⟩
  · intro p hp
    rw [profiles_find_eq_scan] at hp
    obtain ⟨hname, l₁, l₂, heq, hall⟩ := find?_eq_some_split _ _ _ hp
    refine ⟨by simpa using hname, l₁, l₂, heq, ?_⟩
    intro q hq
    simpa using hall q hq
  · rw [profiles_find_eq_scan, List.find?_eq_none]
    constructor
    · intro h p hp
      simpa using h p hp
    · intro h p hp
      simpa using h p hp
  · intro tv htv hfind
    unfold Config.defaultProfile
    rw [htv]
    simp [hfind]

/-- Witness for C5: with built-ins named "A" and "B" and one external
profile also named "B", looking up "B" returns the built-in (scan order
puts built-ins first), and looking up a missing name through
`Config::default_profile` yields the not-found error. -/
theorem profile_find_scans_builtins_then_externals_witness :
    ((Profile.name ⟨"B", []⟩ = "B" ∧
      ∃ l₁ l₂,
        [(⟨"A", []⟩ : Profile), ⟨"B", []⟩]
            ++ (Profiles.externals ⟨[⟨⟨"B", []⟩, "p.json"⟩]⟩).map
                ExternalProfile.profile
          = l₁ ++ (⟨"B", []⟩ : Profile) :: l₂ ∧
        ∀ q ∈ l₁, q.name ≠ "B") ∧
    Config.defaultProfile ⟨⟨"A", []⟩, ⟨"B", []⟩⟩
        ⟨{ profile := none, machine := none, panic := false,
           handlers := Handlers.DEFAULT, backtrace := Backtrace.DEFAULT,
           battery := BatteryConfig.DEFAULT,
           overrides := { Overrides.DEFAULT with profile := some "missing" } },
          ⟨[⟨⟨"B", []⟩, "p.json"⟩]⟩⟩
      = some (Except.error "the default profile 'missing' does not exist")) :=
  ⟨(profile_find_scans_builtins_then_externals ⟨⟨"A", []⟩, ⟨"B", []⟩⟩
      ⟨[⟨⟨"B", []⟩, "p.json"⟩]⟩ "B").2.1 ⟨"B", []⟩ (by with_unfolding_all rfl),
   (profile_find_scans_builtins_then_externals ⟨⟨"A", []⟩, ⟨"B", []⟩⟩
      ⟨[⟨⟨"B", []⟩, "p.json"⟩]⟩ "missing").2.2.2 _ rfl
      (by with_unfolding_all rfl)⟩

/-! # C6: one failing profile file is skipped, discovery continues -/

theorem profilesGetLoop_append (rs₁ rs₂ : List (Except String ExternalProfile)) :
    profilesGetLoop (rs₁ ++ rs₂)
      = (⟨(profilesGetLoop rs₁).1.externals ++ (profilesGetLoop rs₂).1.externals⟩,
         (profilesGetLoop rs₁).2 ++ (profilesGetLoop rs₂).2) := by
  induction rs₁ with
  | nil => rfl
  | cons r rest ih =>
    cases r <;> simp [profilesGetLoop, ih]

/-- C6: for every sequence of files in the profiles directory, a read or
parse failure of one file is recorded as a non-fatal error and that file
is skipped while discovery continues over the remaining files:
`Profiles::get` succeeds as a whole, its profile list is exactly the
successfully parsed entries in order, its error list is exactly the
failures in order, and splitting the directory around any failing entry
shows the failure contributes only its own error while both sides'
successes survive. -/
theorem profiles_get_skips_failures
    (parse : String → Except String Profile)
    (entries : List ProfileDirEntry)
    (pre post : List (Except String ExternalProfile)) (e : String) :
    (∃ out, Profiles.getResult parse entries = Except.ok out) ∧
    (profilesGetLoop (profileDirResults parse entries)).1.externals
      = (profileDirResults parse entries).filterMap Except.toOption ∧
    (profilesGetLoop (profileDirResults parse entries)).2
      = (profileDirResults parse entries).filterMap errOf ∧
    profilesGetLoop (pre ++ Except.error e :: post)
      = (⟨(profilesGetLoop pre).1.externals ++ (profilesGetLoop post).1.externals⟩,
         (profilesGetLoop pre).2 ++ e :: (profilesGetLoop post).2) := by
  refine ⟨⟨_, rfl⟩, ?_, ?_, ?_⟩
  · induction profileDirResults parse entries with
    | nil => rfl
    | cons r rest ih =>
      cases r <;> simp [profilesGetLoop, Except.toOption, ih]
  · induction profileDirResults parse entries with
    | nil => rfl
    | cons r rest ih =>
      cases r <;> simp [profilesGetLoop, errOf, ih]
  · rw [profilesGetLoop_append]
    simp [profilesGetLoop]

/-- Witness for C6 at a concrete directory: two readable well-formed
files around one unreadable file; the failure contributes exactly its
error and both neighbouring profiles survive. -/
theorem profiles_get_skips_failures_witness :
    (∃ out,
      Profiles.getResult
          (fun s => Except.ok ⟨s, []⟩)
          [⟨"a.json", Except.ok "A"⟩,
           ⟨"b.json", Except.error "io"⟩,
           ⟨"c.json", Except.ok "C"⟩]
        = Except.ok out) ∧
    profilesGetLoop
        ([Except.ok ⟨⟨"A", []⟩, "a.json"⟩]
          ++ Except.error "failed to read contents of profile b.json"
            :: [Except.ok ⟨⟨"C", []⟩, "c.json"⟩])
      = (⟨[⟨⟨"A", []⟩, "a.json"⟩] ++ [⟨⟨"C", []⟩, "c.json"⟩]⟩,
         [] ++ "failed to read contents of profile b.json" :: []) :=
  ⟨(profiles_get_skips_failures (fun s => Except.ok ⟨s, []⟩)
      [⟨"a.json", Except.ok "A"⟩, ⟨"b.json", Except.error "io"⟩,
       ⟨"c.json", Except.ok "C"⟩] [] [] "").1,
   by
    have h := (profiles_get_skips_failures (fun s => Except.ok ⟨s, []⟩) []
        [Except.ok ⟨⟨"A", []⟩, "a.json"⟩]
        [Except.ok ⟨⟨"C", []⟩, "c.json"⟩]
        "failed to read contents of profile b.json").2.2.2
    rw [h]
    simp [profilesGetLoop]⟩

/-! # Digit-string lemmas -/

theorem natToDigits_ne_nil (n : Nat) : natToDigits n ≠ [] := by
  rw [natToDigits.eq_def]
  split <;> simp

theorem natToDigits_mem (n : Nat) :
    ∀ c ∈ natToDigits n, ∃ d, d < 10 ∧ c = decimalDigitChar d := by
  induction n using Nat.strong_induction_on with
  | _ n ih =>
    rw [natToDigits.eq_def]
    split
    case isTrue h =>
      intro c hc
      simp only [List.mem_singleton] at hc
      exact ⟨n, h, hc⟩
    case isFalse h =>
      intro c hc
      rcases List.mem_append.mp hc with h1 | h1
      · exact ih (n / 10) (Nat.div_lt_self (by omega) (by omega)) c h1
      · simp only [List.mem_singleton] at h1
        exact ⟨n % 10, Nat.mod_lt _ (by omega), h1⟩

theorem decimalDigitChar_props (d : Nat) (h : d < 10) :
    charToDigit (decimalDigitChar d) = some d ∧
    decimalDigitChar d ≠ '+' ∧ decimalDigitChar d ≠ '%' ∧
    decimalDigitChar d ≠ 's' ∧ decimalDigitChar d ≠ '.' := by
  have hfin : ∀ e : Fin 10, charToDigit (decimalDigitChar e) = some e ∧
      decimalDigitChar e ≠ '+' ∧ decimalDigitChar e ≠ '%' ∧
      decimalDigitChar e ≠ 's' ∧ decimalDigitChar e ≠ '.' := by decide
  exact hfin ⟨d, h⟩

theorem parseDigitsAux_append (cs₁ cs₂ : List Char) (acc : Nat) :
    parseDigitsAux (cs₁ ++ cs₂) acc
      = match parseDigitsAux cs₁ acc with
        | some v => parseDigitsAux cs₂ v
        | none => none := by
  induction cs₁ generalizing acc with
  | nil => rfl
  | cons c rest ih =>
    simp only [List.cons_append, parseDigitsAux]
    cases charToDigit c with
    | none => rfl
    | some d => exact ih (acc * 10 + d)

theorem parseDigitsAux_natToDigits (n : Nat) :
    ∀ acc, parseDigitsAux (natToDigits n) acc
      = some (acc * 10 ^ (natToDigits n).length + n) := by
  induction n using Nat.strong_induction_on with
  | _ n ih =>
    intro acc
    rw [natToDigits.eq_def]
    split
    case isTrue h =>
      simp [parseDigitsAux, (decimalDigitChar_props n h).1]
    case isFalse h =>
      rw [parseDigitsAux_append, ih (n / 10) (Nat.div_lt_self (by omega) (by omega)) acc]
      simp only [parseDigitsAux, (decimalDigitChar_props (n % 10) (Nat.mod_lt _ (by omega))).1,
        List.length_append, List.length_singleton]
      congr 1
      calc (acc * 10 ^ (natToDigits (n / 10)).length + n / 10) * 10 + n % 10
          = acc * 10 ^ (natToDigits (n / 10)).length * 10
              + (n / 10 * 10 + n % 10) := by ring
        _ = acc * 10 ^ ((natToDigits (n / 10)).length + 1) + n := by
            rw [pow_succ, ← mul_assoc]
            omega

theorem parseNatDigits_natToDigits (n : Nat) :
    parseNatDigits (natToDigits n) = some n := by
  have hne := natToDigits_ne_nil n
  rw [parseNatDigits.eq_def]
  split
  · exact absurd (by assumption) hne
  · rw [parseDigitsAux_natToDigits n 0]
    simp

theorem stripLeadingPlus_natToDigits (n : Nat) :
    stripLeadingPlus (natToDigits n) = natToDigits n := by
  rw [stripLeadingPlus.eq_def]
  split
  case h_1 c rest heq =>
    obtain ⟨d, hd, rfl⟩ := natToDigits_mem n c (heq ▸ List.mem_cons_self c rest)
    rw [if_neg (decimalDigitChar_props d hd).2.1]
  case h_2 => rfl

theorem not_mem_natToDigits_of_special (n : Nat) (c : Char)
    (h : ∀ d, d < 10 → decimalDigitChar d ≠ c) : c ∉ natToDigits n := by
  intro hc
  obtain ⟨d, hd, rfl⟩ := natToDigits_mem n c hc
  exact h d hd rfl

theorem trimEndMatches_of_not_mem (c : Char) (cs : List Char)
    (h : c ∉ cs) : trimEndMatches c cs = cs := by
  unfold trimEndMatches
  have hd : cs.reverse.dropWhile (· = c) = cs.reverse := by
    cases hrev : cs.reverse with
    | nil => rfl
    | cons x xs =>
      have hx : x ∈ cs := by
        have hx' : x ∈ cs.reverse := by
          rw [hrev]
          exact List.mem_cons_self x xs
        simpa using hx'
      rw [List.dropWhile_cons]
      simp [show ¬(x = c) from fun hh => h (hh ▸ hx)]
  rw [hd, List.reverse_reverse]

theorem trimEndMatches_append_single (c : Char) (cs : List Char) :
    trimEndMatches c (cs ++ [c]) = trimEndMatches c cs := by
  unfold trimEndMatches
  rw [List.reverse_append]
  simp [List.dropWhile_cons]

/-! # C7: BatteryLevel construction range and display/parse round trip -/

/-- C7: for every `u8` input, `BatteryLevel::new` succeeds iff the input
is in [0, 100], and every valid level round-trips through its display
form (the number followed by `%`); in particular 80 displays as `"80%"`
and parses back to 80. -/
theorem battery_level_new_range_and_roundtrip :
    (∀ n : Nat, n ≤ 255 → ((BatteryLevel.new n).isSome ↔ n ≤ 100)) ∧
    (∀ b : BatteryLevel, b.level ≤ 100 →
      BatteryLevel.fromStr (BatteryLevel.display b) = Except.ok b) ∧
    BatteryLevel.display ⟨80⟩ = "80%" ∧
    BatteryLevel.fromStr "80%" = Except.ok ⟨80⟩ := by
  refine ⟨?_, ?_, by with_unfolding_all rfl, by with_unfolding_all rfl⟩
  · intro n _
    unfold BatteryLevel.new
    split <;> simp [*]
  · intro b hb
    show BatteryLevel.fromStrChars (BatteryLevel.displayChars b).asString.data
      = Except.ok b
    have hdata : (BatteryLevel.displayChars b).asString.data
        = natToDigits b.level ++ ['%'] := rfl
    rw [hdata]
    unfold BatteryLevel.fromStrChars
    rw [trimEndMatches_append_single,
      trimEndMatches_of_not_mem _ _
        (not_mem_natToDigits_of_special _ _
          fun d hd => (decimalDigitChar_props d hd).2.2.1)]
    have hp8 : parseU8 (natToDigits b.level) = some b.level := by
      unfold parseU8
      rw [stripLeadingPlus_natToDigits, parseNatDigits_natToDigits]
      show (if b.level ≤ 255 then some b.level else none) = some b.level
      rw [if_pos (by omega)]
    rw [hp8]
    show (match BatteryLevel.new b.level with
      | some v => Except.ok v
      | none =>
        Except.error "is out of bounds (must be within 0 and 100 inclusive)")
      = Except.ok b
    unfold BatteryLevel.new
    rw [if_pos hb]

/-- Witness for C7: construction succeeds at 80 and fails at 101, and
the level 80 round-trips through `"80%"`. -/
theorem battery_level_new_range_and_roundtrip_witness :
    ((BatteryLevel.new 80).isSome ↔ 80 ≤ 100) ∧
    ((BatteryLevel.new 101).isSome ↔ 101 ≤ 100) ∧
    BatteryLevel.fromStr (BatteryLevel.display ⟨80⟩) = Except.ok ⟨80⟩ :=
  ⟨battery_level_new_range_and_roundtrip.1 80 (by decide),
   battery_level_new_range_and_roundtrip.1 101 (by decide),
   battery_level_new_range_and_roundtrip.2.1 ⟨80⟩ (by decide)⟩

/-! # Decimal-numeral lemmas for CoolDown -/

theorem splitAtDot_of_not_mem (cs : List Char) (h : '.' ∉ cs) :
    splitAtDot cs = none := by
  induction cs with
  | nil => rfl
  | cons c rest ih =>
    have hc : ¬c = '.' := fun hc => h (hc ▸ List.mem_cons_self c rest)
    rw [splitAtDot, if_neg hc, ih fun hm => h (List.mem_cons_of_mem c hm)]
    rfl

theorem splitAtDot_append (xs ys : List Char) (h : '.' ∉ xs) :
    splitAtDot (xs ++ '.' :: ys) = some (xs, ys) := by
  induction xs with
  | nil => simp [splitAtDot]
  | cons c rest ih =>
    have hc : ¬c = '.' := fun hc => h (hc ▸ List.mem_cons_self c rest)
    rw [List.cons_append, splitAtDot, if_neg hc,
      ih fun hm => h (List.mem_cons_of_mem c hm)]
    rfl

theorem parseDigitsAux_acc (cs : List Char) :
    ∀ acc, parseDigitsAux cs acc
      = (parseDigitsAux cs 0).map fun v => acc * 10 ^ cs.length + v := by
  induction cs with
  | nil =>
    intro acc
    simp [parseDigitsAux]
  | cons c rest ih =>
    intro acc
    simp only [parseDigitsAux]
    cases charToDigit c with
    | none => rfl
    | some d =>
      show parseDigitsAux rest (acc * 10 + d)
        = Option.map (fun v => acc * 10 ^ (c :: rest).length + v)
            (parseDigitsAux rest (0 * 10 + d))
      rw [ih (acc * 10 + d), ih (0 * 10 + d)]
      cases parseDigitsAux rest 0 with
      | none => rfl
      | some v =>
        simp only [Option.map_some, List.length_cons]
        exact congrArg some (by ring)

theorem parseDigitsAux_replicate_zero (k : Nat) (ds : List Char) :
    parseDigitsAux (List.replicate k '0' ++ ds) 0 = parseDigitsAux ds 0 := by
  induction k with
  | zero => rfl
  | succ m ih =>
    have hc : charToDigit '0' = some 0 := by decide
    rw [List.replicate_succ, List.cons_append, parseDigitsAux, hc]
    simpa using ih

theorem pad_mem_digit (k n : Nat) :
    ∀ c ∈ List.replicate k '0' ++ natToDigits n,
      ∃ d, d < 10 ∧ c = decimalDigitChar d := by
  intro c hc
  rcases List.mem_append.mp hc with h | h
  · rw [List.eq_of_mem_replicate h]
    exact ⟨0, by omega, by decide⟩
  · exact natToDigits_mem n c h

theorem factorCount_eq (p m : Nat) (hp : 2 ≤ p) (hm : 1 ≤ m)
    (hdvd : ¬p ∣ m) : ∀ a, factorCount p (p ^ a * m) = a := by
  intro a
  induction a with
  | zero =>
    rw [factorCount.eq_def, pow_zero, one_mul, dif_neg]
    rintro ⟨_, _, hd⟩
    exact hdvd hd
  | succ e ih =>
    have hpos : 1 ≤ p ^ (e + 1) * m :=
      Nat.mul_pos (pow_pos (by omega) _) hm
    have hdv : p ∣ p ^ (e + 1) * m :=
      Dvd.dvd.mul_right (dvd_pow_self p (by omega)) m
    rw [factorCount.eq_def, dif_pos ⟨hp, hpos, hdv⟩]
    have hrw : p ^ (e + 1) * m = p * (p ^ e * m) := by ring
    rw [hrw, Nat.mul_div_cancel_left _ (by omega), ih]

theorem parseDigitsOrEmpty_eq (cs : List Char) :
    parseDigitsOrEmpty cs = parseDigitsAux cs 0 := by
  cases cs <;> rfl

theorem parseDigitsAux_pad_value (k N : Nat) :
    parseDigitsAux
        (List.replicate (k + 1 - (natToDigits N).length) '0' ++ natToDigits N) 0
      = some N := by
  rw [parseDigitsAux_replicate_zero, parseDigitsAux_natToDigits N 0]
  simp

theorem parseDecimalQ_eq_of_split (cs ip fp : List Char)
    (h : splitAtDot cs = some (ip, fp)) :
    parseDecimalQ cs
      = if ip = [] ∧ fp = [] then none
        else
          match parseDigitsOrEmpty ip, parseDigitsOrEmpty fp with
          | some a, some b => some ((a : ℚ) + (b : ℚ) / (10 : ℚ) ^ fp.length)
          | _, _ => none := by
  unfold parseDecimalQ
  rw [h]

theorem parseDecimalQ_split_pad (N k : Nat) (pad : List Char)
    (hpad : pad
      = List.replicate (k + 1 - (natToDigits N).length) '0' ++ natToDigits N) :
    parseDecimalQ
        (pad.take (pad.length - k) ++ '.' :: pad.drop (pad.length - k))
      = some ((N : ℚ) / 10 ^ k) ∧
    (∀ c ∈ pad.take (pad.length - k) ++ '.' :: pad.drop (pad.length - k),
      c = '.' ∨ ∃ d, d < 10 ∧ c = decimalDigitChar d) := by
  have hpadmem : ∀ c ∈ pad, ∃ d, d < 10 ∧ c = decimalDigitChar d := by
    rw [hpad]
    exact pad_mem_digit _ N
  have hdlen : 1 ≤ (natToDigits N).length :=
    List.length_pos.mpr (natToDigits_ne_nil N)
  have hplen : k + 1 ≤ pad.length := by
    rw [hpad, List.length_append, List.length_replicate]
    omega
  have hmem : ∀ c ∈ pad.take (pad.length - k) ++ '.' :: pad.drop (pad.length - k),
      c = '.' ∨ ∃ d, d < 10 ∧ c = decimalDigitChar d := by
    intro c hc
    rcases List.mem_append.mp hc with h | h
    · exact Or.inr (hpadmem c (List.take_subset _ _ h))
    · rcases List.mem_cons.mp h with h | h
      · exact Or.inl h
      · exact Or.inr (hpadmem c (List.drop_subset _ _ h))
  refine ⟨?_, hmem⟩
  have hip_len : (pad.take (pad.length - k)).length = pad.length - k := by
    rw [List.length_take]
    omega
  have hip_ne : pad.take (pad.length - k) ≠ [] := by
    intro h
    have hl := congrArg List.length h
    rw [hip_len] at hl
    simp at hl
    omega
  have hfp_len : (pad.drop (pad.length - k)).length = k := by
    rw [List.length_drop]
    omega
  have hip_nodot : '.' ∉ pad.take (pad.length - k) := by
    intro h
    obtain ⟨d, hd, hdc⟩ := hpadmem _ (List.take_subset _ _ h)
    exact (decimalDigitChar_props d hd).2.2.2.2 hdc.symm
  rw [parseDecimalQ_eq_of_split _ _ _ (splitAtDot_append _ _ hip_nodot),
    if_neg (by rintro ⟨h1, -⟩; exact hip_ne h1),
    parseDigitsOrEmpty_eq, parseDigitsOrEmpty_eq]
  have hpadval : parseDigitsAux pad 0 = some N := by
    rw [hpad]
    exact parseDigitsAux_pad_value k N
  have hsplitpad := List.take_append_drop (pad.length - k) pad
  rw [← hsplitpad, parseDigitsAux_append] at hpadval
  cases hA : parseDigitsAux (pad.take (pad.length - k)) 0 with
  | none => simp [hA] at hpadval
  | some A =>
    simp only [hA] at hpadval
    rw [parseDigitsAux_acc _ A] at hpadval
    cases hB : parseDigitsAux (pad.drop (pad.length - k)) 0 with
    | none => simp [hB] at hpadval
    | some B =>
      simp only [hB, Option.map_some', Option.some.injEq] at hpadval
      rw [hfp_len] at hpadval
      show some ((A : ℚ) + (B : ℚ) / (10 : ℚ) ^ (pad.drop (pad.length - k)).length)
        = some ((N : ℚ) / 10 ^ k)
      rw [hfp_len]
      have h10 : ((10 : ℚ) ^ k) ≠ 0 := pow_ne_zero _ (by norm_num)
      congr 1
      rw [eq_div_iff h10, add_mul, div_mul_cancel₀ _ h10]
      have hcast : (A : ℚ) * 10 ^ k + (B : ℚ) = ((A * 10 ^ k + B : ℕ) : ℚ) := by
        push_cast
        ring
      rw [hcast, hpadval]

theorem cooldown_display_natCast (n : Nat) :
    CoolDown.displayChars ⟨(n : ℚ)⟩ = natToDigits n := by
  simp only [CoolDown.displayChars]
  rw [Rat.den_natCast, if_pos rfl, Rat.num_natCast, Int.toNat_natCast]

theorem cooldown_fromStrChars_digits (n : Nat) :
    CoolDown.fromStrChars (natToDigits n) = Except.ok ⟨(n : ℚ)⟩ := by
  simp only [CoolDown.fromStrChars]
  rw [trimEndMatches_of_not_mem _ _
    (not_mem_natToDigits_of_special _ _
      fun d hd => (decimalDigitChar_props d hd).2.2.2.1)]
  have hpd : parseDecimalQ (natToDigits n) = some (n : ℚ) := by
    unfold parseDecimalQ
    rw [splitAtDot_of_not_mem _
      (not_mem_natToDigits_of_special _ _
        fun d hd => (decimalDigitChar_props d hd).2.2.2.2)]
    rw [parseNatDigits_natToDigits]
    rfl
  rw [hpd]
  rfl

theorem some_orElse_eq {α : Type} (x : α) (f : Unit → Option α) :
    (some x).orElse f = some x := rfl

/-! # C8: CoolDown parse forms, suffix stripping, and round trips -/

/-- C8: `CoolDown` parsing accepts integral (`"60"`) and fractional
(`"1.5"`) second strings, tolerates and strips a trailing `"s"` suffix
(on every input string), an integral-second value displays as the same
integer string and parses back, and a fractional value with a finite
decimal expansion displays as a fractional string (it contains `.`) that
parses back to the same duration. -/
theorem cooldown_parse_display_roundtrip :
    (CoolDown.fromStr "60" = Except.ok ⟨60⟩ ∧
      CoolDown.fromStr "1.5" = Except.ok ⟨3 / 2⟩ ∧
      CoolDown.fromStr "60s" = Except.ok ⟨60⟩ ∧
      CoolDown.fromStr "1.5s" = Except.ok ⟨3 / 2⟩) ∧
    (∀ s : String, CoolDown.fromStr (s ++ "s") = CoolDown.fromStr s) ∧
    (∀ n : Nat, CoolDown.display ⟨(n : ℚ)⟩ = (natToDigits n).asString ∧
      CoolDown.fromStr (CoolDown.display ⟨(n : ℚ)⟩) = Except.ok ⟨(n : ℚ)⟩) ∧
    (∀ q : ℚ, 0 ≤ q → q.den ≠ 1 → (∃ a b : Nat, q.den = 2 ^ a * 5 ^ b) →
      '.' ∈ (CoolDown.display ⟨q⟩).data ∧
      CoolDown.fromStr (CoolDown.display ⟨q⟩) = Except.ok ⟨q⟩) := by
  refine ⟨⟨by with_unfolding_all rfl, by with_unfolding_all rfl,
    by with_unfolding_all rfl, by with_unfolding_all rfl⟩, ?_, ?_, ?_⟩
  · intro s
    show CoolDown.fromStrChars (s ++ "s").data = CoolDown.fromStrChars s.data
    rw [String.data_append]
    have hs : ("s" : String).data = ['s'] := rfl
    rw [hs]
    simp only [CoolDown.fromStrChars]
    rw [trimEndMatches_append_single]
  · intro n
    constructor
    · show (CoolDown.displayChars ⟨(n : ℚ)⟩).asString = _
      rw [cooldown_display_natCast]
    · show CoolDown.fromStrChars
          (CoolDown.displayChars ⟨(n : ℚ)⟩).asString.data = _
      have hdd : (CoolDown.displayChars ⟨(n : ℚ)⟩).asString.data
          = CoolDown.displayChars ⟨(n : ℚ)⟩ := rfl
      rw [hdd, cooldown_display_natCast, cooldown_fromStrChars_digits]
  · rintro q hq0 hden ⟨a, b, hab⟩
    have h2 : ¬(2 : ℕ) ∣ 5 ^ b := by
      intro h
      have h25 := Nat.Prime.dvd_of_dvd_pow Nat.prime_two h
      norm_num at h25
    have h5 : ¬(5 : ℕ) ∣ 2 ^ a := by
      intro h
      have h52 := Nat.Prime.dvd_of_dvd_pow (by norm_num : Nat.Prime 5) h
      norm_num at h52
    have hk : fracDecimalDigits q = max a b := by
      have hfc2 : factorCount 2 q.den = a := by
        rw [hab]
        exact factorCount_eq 2 (5 ^ b) (by omega)
          (Nat.one_le_iff_ne_zero.mpr (pow_ne_zero _ (by omega))) h2 a
      have hfc5 : factorCount 5 q.den = b := by
        rw [hab, mul_comm]
        exact factorCount_eq 5 (2 ^ a) (by omega)
          (Nat.one_le_iff_ne_zero.mpr (pow_ne_zero _ (by omega))) h5 b
      rw [fracDecimalDigits, hfc2, hfc5]
    set k := fracDecimalDigits q with hkdef
    have hak : a ≤ k := by omega
    have hbk : b ≤ k := by omega
    have hdvd : q.den ∣ 10 ^ k := by
      rw [hab, show (10 : ℕ) = 2 * 5 by norm_num, mul_pow]
      exact Nat.mul_dvd_mul (pow_dvd_pow 2 hak) (pow_dvd_pow 5 hbk)
    have hd0 : ((q.den : ℚ)) ≠ 0 := Nat.cast_ne_zero.mpr (Rat.den_ne_zero q)
    have hnum0 : 0 ≤ q.num := Rat.num_nonneg.mpr hq0
    set N := q.num.toNat * (10 ^ k / q.den) with hN
    have htn : ((q.num.toNat : ℕ) : ℚ) = (q.num : ℚ) := by
      exact_mod_cast congrArg (fun z : ℤ => (z : ℚ)) (Int.toNat_of_nonneg hnum0)
    have hdivcast : ((10 ^ k / q.den : ℕ) : ℚ) = (10 : ℚ) ^ k / (q.den : ℚ) := by
      rw [Nat.cast_div hdvd hd0]
      push_cast
      ring
    have hqk : q * (10 : ℚ) ^ k = (N : ℚ) := by
      calc q * (10 : ℚ) ^ k
          = (q.num : ℚ) / (q.den : ℚ) * 10 ^ k := by rw [Rat.num_div_den]
        _ = (q.num : ℚ) * ((10 : ℚ) ^ k / (q.den : ℚ)) := by ring
        _ = ((q.num.toNat : ℕ) : ℚ) * ((10 ^ k / q.den : ℕ) : ℚ) := by
            rw [htn, hdivcast]
        _ = (N : ℚ) := by
            rw [hN]
            push_cast
            ring
    have hq_eq : q = (N : ℚ) / 10 ^ k := by
      rw [eq_div_iff (pow_ne_zero _ (by norm_num : (10 : ℚ) ≠ 0))]
      exact hqk
    have hNnum : (q * (10 : ℚ) ^ k).num.toNat = N := by
      rw [hqk, Rat.num_natCast, Int.toNat_natCast]
    obtain ⟨hparse, hmem⟩ :=
      parseDecimalQ_split_pad N k
        (List.replicate (k + 1 - (natToDigits N).length) '0' ++ natToDigits N)
        rfl
    have hdisp : CoolDown.displayChars ⟨q⟩
        = (List.replicate (k + 1 - (natToDigits N).length) '0'
              ++ natToDigits N).take
            ((List.replicate (k + 1 - (natToDigits N).length) '0'
              ++ natToDigits N).length - k)
          ++ '.' :: (List.replicate (k + 1 - (natToDigits N).length) '0'
              ++ natToDigits N).drop
            ((List.replicate (k + 1 - (natToDigits N).length) '0'
              ++ natToDigits N).length - k) := by
      simp only [CoolDown.displayChars]
      rw [if_neg hden, ← hkdef, hNnum]
    have hnos : 's' ∉ CoolDown.displayChars ⟨q⟩ := by
      rw [hdisp]
      intro hmem'
      rcases hmem _ hmem' with h | ⟨d, hd, hdc⟩
      · exact absurd h (by decide)
      · exact (decimalDigitChar_props d hd).2.2.2.1 hdc.symm
    constructor
    · show '.' ∈ (CoolDown.displayChars ⟨q⟩).asString.data
      have hdd : (CoolDown.displayChars ⟨q⟩).asString.data
          = CoolDown.displayChars ⟨q⟩ := rfl
      rw [hdd, hdisp]
      exact List.mem_append_right _ (List.mem_cons_self _ _)
    · show CoolDown.fromStrChars
          (CoolDown.displayChars ⟨q⟩).asString.data = _
      have hdd : (CoolDown.displayChars ⟨q⟩).asString.data
          = CoolDown.displayChars ⟨q⟩ := rfl
      rw [hdd]
      simp only [CoolDown.fromStrChars]
      rw [trimEndMatches_of_not_mem _ _ hnos, hdisp, hparse,
        some_orElse_eq, ← hq_eq]

/-- Witness for C8: the suffix rule at `"1.5"`, the integral round trip
at 60 seconds, and the fractional round trip at 1.5 seconds. -/
theorem cooldown_parse_display_roundtrip_witness :
    CoolDown.fromStr ("1.5" ++ "s") = CoolDown.fromStr "1.5" ∧
    (CoolDown.display ⟨(60 : ℚ)⟩ = (natToDigits 60).asString ∧
      CoolDown.fromStr (CoolDown.display ⟨(60 : ℚ)⟩)
        = Except.ok ⟨(60 : ℚ)⟩) ∧
    ('.' ∈ (CoolDown.display ⟨3 / 2⟩).data ∧
      CoolDown.fromStr (CoolDown.display ⟨3 / 2⟩) = Except.ok ⟨3 / 2⟩) :=
  ⟨cooldown_parse_display_roundtrip.2.1 "1.5",
   cooldown_parse_display_roundtrip.2.2.1 60,
   cooldown_parse_display_roundtrip.2.2.2 (3 / 2)
     (by with_unfolding_all decide)
     (by with_unfolding_all decide)
     ⟨1, 0, by with_unfolding_all decide⟩⟩
